import Mathlib

/-
Shallow embedding of the cross-source merge and deduplication engine of
hodl-gap/newsletter-tester (src/PycharmProjects/project_ai_newsletter).

Conventions of the embedding:
  * an article dict is a structure; `url?`/`link?` model the presence or
    absence of the `url`/`link` keys (`dict.get` with a default becomes
    `Option.getD`);
  * the ISO date strings stored in `pub_date` compare lexicographically,
    which for well-formed ISO strings is chronological order, so they are
    modelled as `Nat` hours since an epoch; `strftime("%Y-%m-%d")` becomes
    truncation to a multiple of 24 (`dateFloor` below);
  * float similarity scores are modelled as `ℚ`; the cosine function itself
    is a parameter (`sim`), since the classification logic of
    compare_similarities.py only inspects the resulting scores;
  * the fallible LLM call and the JSON parse of its response are parameters
    of type `Except String _`; an uncaught Python exception is an
    `Except.error` that the caller propagates;
  * SQLite's `url TEXT UNIQUE` constraint is modelled by a membership test
    on the list of stored rows (an `IntegrityError` is the `true` branch).
-/

namespace NewsletterDedup

/-- One content record flowing through the pipeline (an `article` dict of
the source). -/
structure Article where
  url? : Option String
  link? : Option String
  title : String
  summary : String
  source_type : String
  pub_date : Nat
  embedding : Option (List ℚ)
deriving DecidableEq

instance : Inhabited Article := ⟨⟨none, none, "", "", "", 0, none⟩⟩

/-- Models `article.get("url", "")` (merge_pipeline_outputs.py line 85). -/
def getUrl (a : Article) : String := a.url?.getD ""

/-- Models `article.get("url", article.get("link", ""))` (database.py
lines 207 and 260, store_articles.py line 65). -/
def articleKey (a : Article) : String := a.url?.getD (a.link?.getD "")

/-- A stored row of the `articles` table (database.py SCHEMA_SQL): `url` is
the `TEXT UNIQUE NOT NULL` column, written from `articleKey` on insert. -/
structure Row where
  url : String
  title : String
  summary : String
  source_type : String
  pub_date : Nat
  embedding : Option (List ℚ)
deriving DecidableEq

/-- The row built by the INSERT of database.py lines 265-283. -/
def mkRow (a : Article) : Row :=
  ⟨articleKey a, a.title, a.summary, a.source_type, a.pub_date, a.embedding⟩

/-- URLs currently stored (the `url` column). -/
def urls (db : List Row) : List String := db.map Row.url

/-- Models `ArticleDatabase.url_exists` (database.py lines 138-154); the
SHA-256 `url_hash` lookup is modelled as equality on the raw URL. -/
def url_exists (db : List Row) (u : String) : Bool :=
  db.any (fun r => r.url == u)

/-- Models `ArticleDatabase.insert_article` (database.py lines 191-237):
insert, or skip on the UNIQUE-constraint `IntegrityError`. Returns the new
store and whether the row was inserted. -/
def insert_article (db : List Row) (a : Article) : List Row × Bool :=
  if url_exists db (articleKey a) then (db, false)
  else (db ++ [mkRow a], true)

/-- Models `ArticleDatabase.insert_articles_batch` (database.py lines
239-291): a fold of per-record insert-or-skip, counting successes. -/
def insert_articles_batch : List Row → List Article → List Row × Nat
  | db, [] => (db, 0)
  | db, a :: rest =>
    let r := insert_article db a
    let s := insert_articles_batch r.1 rest
    (s.1, (if r.2 then 1 else 0) + s.2)

/-- Models `strftime("%Y-%m-%d")` applied to a timestamp in hours: truncate
to the start of the calendar day (database.py line 312). -/
def dateFloor (t : Nat) : Nat := t / 24 * 24

/-- Models `ArticleDatabase.get_recent_articles` (database.py lines
297-326): keep rows with `pub_date >= cutoff`, where the cutoff is the
DATE-truncated `now - hours`. Rows are kept whether or not they carry an
embedding. The SQL ORDER BY is not modelled; no claim depends on the order
of the historical window. -/
def get_recent_articles (db : List Row) (now hours : Nat) : List Row :=
  db.filter (fun r => decide (dateFloor (now - hours) ≤ r.pub_date))

/-- Models `ArticleDatabase.is_empty` (database.py lines 334-336). -/
def db_is_empty (db : List Row) : Bool := db.isEmpty

/-- A historical row handed back to the pipeline (`_row_to_dict`,
database.py lines 338-347). -/
def rowToArticle (r : Row) : Article :=
  ⟨some r.url, none, r.title, r.summary, r.source_type, r.pub_date, r.embedding⟩

/-- Models `load_historical_embeddings` (load_historical_embeddings.py):
empty DB means first run; otherwise load the recent window and drop rows
whose `embedding` is absent. Returns (historical_articles, is_first_run). -/
def load_historical_embeddings (db : List Row) (now lookback_hours : Nat) :
    List Article × Bool :=
  if db_is_empty db then ([], true)
  else
    (((get_recent_articles db now lookback_hours).filter
        (fun r => r.embedding.isSome)).map rowToArticle, false)

/-- Models `generate_embeddings` (generate_embeddings.py lines 96-135) under
the API contract that every text receives one vector: attach `embed a` to
each article, preserving order. -/
def generate_embeddings (embed : Article → List ℚ) (arts : List Article) :
    List Article :=
  arts.map (fun a => { a with embedding := some (embed a) })

/-- compare_similarities.py line 18. -/
def THRESHOLD_UNIQUE : ℚ := 0.75

/-- compare_similarities.py line 19. -/
def THRESHOLD_DUPLICATE : ℚ := 0.90

/-- Models `numpy.max` over a similarity row. -/
def rowMax : List ℚ → ℚ
  | [] => 0
  | x :: xs => xs.foldl max x

/-- Models `numpy.argmax` over a similarity row: the first index attaining
the maximum. -/
def rowArgmax (l : List ℚ) : Nat := l.indexOf (rowMax l)

/-- An auto-detected or LLM-confirmed duplicate (the dicts built at
compare_similarities.py lines 90-94 and llm_confirm_duplicates.py lines
83-89). `llm_confirmed`/`llm_reason` are `none` when the keys are absent
(the auto-detected case). -/
structure DupEntry where
  article : Article
  duplicate_of : Article
  similarity : ℚ
  llm_confirmed : Option Bool
  llm_reason : Option String
deriving DecidableEq

/-- An ambiguous pair needing adjudication (compare_similarities.py lines
97-101). -/
structure AmbigEntry where
  new_article : Article
  existing_article : Article
  similarity : ℚ
deriving DecidableEq

/-- The three output lists of compare_similarities. -/
structure ClassifyResult where
  unique_articles : List Article
  duplicate_articles : List DupEntry
  ambiguous_pairs : List AmbigEntry
deriving DecidableEq

/-- The classification loop of compare_similarities.py lines 81-101, one
new article at a time, in input order. -/
def compareLoop (sim : Article → Article → ℚ) (historical : List Article) :
    List Article → ClassifyResult
  | [] => ⟨[], [], []⟩
  | a :: rest =>
    let sims := historical.map (sim a)
    let max_sim := rowMax sims
    let max_idx := rowArgmax sims
    let r := compareLoop sim historical rest
    if max_sim < THRESHOLD_UNIQUE then
      { r with unique_articles := a :: r.unique_articles }
    else if THRESHOLD_DUPLICATE ≤ max_sim then
      { r with duplicate_articles :=
          ⟨a, historical.getD max_idx default, max_sim, none, none⟩ ::
            r.duplicate_articles }
    else
      { r with ambiguous_pairs :=
          ⟨a, historical.getD max_idx default, max_sim⟩ :: r.ambiguous_pairs }

/-- Models `compare_similarities` (compare_similarities.py lines 23-112):
on a first run or an empty history every new article is unique and no
similarity is computed; otherwise classify by the two thresholds. -/
def compare_similarities (sim : Article → Article → ℚ)
    (new_articles historical : List Article) (is_first_run : Bool) :
    ClassifyResult :=
  if is_first_run || historical.isEmpty then ⟨new_articles, [], []⟩
  else compareLoop sim historical new_articles

/-- One confirmation dict of the adjudicator's parsed response
(llm_confirm_duplicates.py). -/
structure Confirmation where
  pair_index : Nat
  is_duplicate : Bool
  reason : String
deriving DecidableEq

/-- The while-loop of llm_confirm_duplicates.py lines 160-165: pad the
parsed confirmations up to one per pair, defaulting to not-duplicate. -/
def padConfirmations (confs : List Confirmation) (n : Nat) :
    List Confirmation :=
  confs ++ (List.range (n - confs.length)).map
    (fun k => ⟨confs.length + k, false, "No LLM response - defaulting to unique"⟩)

/-- Models `_call_llm_for_confirmation` (llm_confirm_duplicates.py lines
113-175). The network call (lines 132-151) is the `call_result` parameter
and sits OUTSIDE the try: its failure propagates. A parse failure (the
except at lines 169-175) defaults every pair to not-duplicate with the
failure text as reason. -/
def call_llm_for_confirmation (n : Nat) (call_result : Except String String)
    (parse : String → Except String (List Confirmation)) :
    Except String (List Confirmation) :=
  match call_result with
  | .error e => .error e
  | .ok text =>
    match parse text with
    | .ok result => .ok (padConfirmations result n)
    | .error e =>
      .ok ((List.range n).map (fun i => ⟨i, false, "Parse error: " ++ e⟩))

/-- The result loop of llm_confirm_duplicates.py lines 78-100: each
confirmation routes its pair to the duplicate or the unique list, appending
in pair order. -/
def processConfirmations (pairs : List AmbigEntry) (confs : List Confirmation)
    (dups : List DupEntry) (uniqs : List Article) :
    List DupEntry × List Article :=
  (pairs.zip confs).foldl
    (fun acc pc =>
      if pc.2.is_duplicate then
        (acc.1 ++ [⟨pc.1.new_article, pc.1.existing_article, pc.1.similarity,
                    some true, some pc.2.reason⟩], acc.2)
      else (acc.1, acc.2 ++ [pc.1.new_article]))
    (dups, uniqs)

/-- Models `llm_confirm_duplicates` (llm_confirm_duplicates.py lines
20-110). With no ambiguous pairs the inputs pass through and no call is
made. A confirmations list longer than the pairs list would raise
`ambiguous_pairs[i]` IndexError in the source, modelled as an error. -/
def llm_confirm_duplicates (pairs : List AmbigEntry) (uniqs : List Article)
    (dups : List DupEntry) (call_result : Except String String)
    (parse : String → Except String (List Confirmation)) :
    Except String (List DupEntry × List Article) :=
  if pairs.isEmpty then .ok (dups, uniqs)
  else
    match call_llm_for_confirmation pairs.length call_result parse with
    | .error e => .error e
    | .ok confs =>
      if pairs.length < confs.length then
        .error "IndexError: list index out of range"
      else .ok (processConfirmations pairs confs dups uniqs)

/-- One row of the `dedup_log` audit table (database.py lines 52-61). -/
structure DedupLogEntry where
  original_url : String
  duplicate_of_url : String
  dedup_type : String
  similarity_score : Option ℚ
  llm_confirmed : Option Bool
deriving DecidableEq

/-- The entry built at store_articles.py lines 63-76. -/
def mkDedupLogEntry (d : DupEntry) : DedupLogEntry :=
  ⟨articleKey d.article, articleKey d.duplicate_of,
   if d.llm_confirmed.getD false then "semantic_llm" else "semantic_auto",
   some d.similarity, d.llm_confirmed⟩

/-- Output of store_articles. -/
structure StoreResult where
  db : List Row
  stored_count : Nat
  logs : List DedupLogEntry
  final_unique : List Article
deriving DecidableEq

/-- Models `store_articles` (store_articles.py lines 14-85): batch-insert
the confirmed-unique articles (duplicate URLs silently skipped) and write
one audit-log entry per confirmed duplicate — and only per duplicate. -/
def store_articles (db : List Row) (confirmed_unique : List Article)
    (confirmed_duplicates : List DupEntry) : StoreResult :=
  let r := insert_articles_batch db confirmed_unique
  ⟨r.1, r.2, confirmed_duplicates.map mkDedupLogEntry, confirmed_unique⟩

/-- Per-source-type merge statistics (merge_pipeline_outputs.py lines
78-82). -/
structure SourceStats where
  loaded : Nat
  kept : Nat
  url_collisions : Nat
deriving DecidableEq

/-- The `stats` dict of merge_pipeline_outputs.py lines 57-62 and 100. -/
structure MergeStats where
  by_source_type : List (String × SourceStats)
  url_collisions : Nat
  total_before_dedup : Nat
  total_after_dedup : Nat
deriving DecidableEq

/-- The inner loop of merge_pipeline_outputs.py lines 84-98 over one
source's articles: keep first-seen URLs, count collisions. Returns the kept
articles in order, the updated seen set and the collision count. -/
def processArticles : List Article → List String → List Article × List String × Nat
  | [], seen => ([], seen, 0)
  | a :: rest, seen =>
    if getUrl a ∈ seen then
      let r := processArticles rest seen
      (r.1, r.2.1, r.2.2 + 1)
    else
      let r := processArticles rest (getUrl a :: seen)
      (a :: r.1, r.2.1, r.2.2)

/-- The fixed priority order of merge_pipeline_outputs.py line 69. -/
def priorityOrder : List String := ["rss", "html", "twitter"]

/-- The source types actually processed, in priority order
(merge_pipeline_outputs.py lines 69-71). -/
def selectedSources (input_sources : List String) : List String :=
  priorityOrder.filter (fun st => decide (st ∈ input_sources))

/-- Models `_load_articles_from_file`'s tagging (merge_pipeline_outputs.py
lines 156-157): each loaded article gets the source's `source_type`. The
file contents are the `files` parameter. -/
def taggedList (files : String → List Article) (st : String) : List Article :=
  (files st).map (fun a => { a with source_type := st })

/-- The whole candidate stream in priority order. -/
def mergedStream (input_sources : List String) (files : String → List Article) :
    List Article :=
  ((selectedSources input_sources).map (taggedList files)).flatten

/-- Keep the first occurrence of each URL, given an initial seen set: the
specification-level description of the merge output. -/
def dedupFirstAux : List String → List Article → List Article
  | _, [] => []
  | seen, a :: rest =>
    if getUrl a ∈ seen then dedupFirstAux seen rest
    else a :: dedupFirstAux (getUrl a :: seen) rest

/-- The per-source fold of merge_pipeline_outputs.py lines 69-98: returns
(merged articles, per-source stats in processing order, total collisions,
total loaded). -/
def mergeSources (input_sources : List String) (files : String → List Article) :
    List String → List String → List Article × List (String × SourceStats) × Nat × Nat
  | [], _seen => ([], [], 0, 0)
  | st :: rest, seen =>
    if st ∈ input_sources then
      let arts := taggedList files st
      let p := processArticles arts seen
      let r := mergeSources input_sources files rest p.2.1
      (p.1 ++ r.1,
       (st, ⟨arts.length, p.1.length, p.2.2⟩) :: r.2.1,
       p.2.2 + r.2.2.1,
       arts.length + r.2.2.2)
    else mergeSources input_sources files rest seen

/-- Models `merge_pipeline_outputs` (merge_pipeline_outputs.py lines
29-117): merge the selected sources in priority order with URL first-seen
dedup, producing the candidate list and the merge statistics. -/
def merge_pipeline_outputs (input_sources : List String)
    (files : String → List Article) : List Article × MergeStats :=
  let r := mergeSources input_sources files priorityOrder []
  (r.1, ⟨r.2.1, r.2.2.1, r.2.2.2, r.1.length⟩)

/-- The `summary` block of the dedup report (export_dedup_report.py lines
84-92). -/
structure ReportSummary where
  total_input : Nat
  unique_kept : Nat
  duplicates_removed : Nat
  url_duplicates : Nat
  semantic_auto_duplicates : Nat
  semantic_llm_confirmed : Nat
  stored_to_db : Nat
deriving DecidableEq

/-- One entry of the report's `duplicates` list (export_dedup_report.py
lines 110-118). -/
structure DupReportEntry where
  removed_url : String
  removed_title : String
  duplicate_of_url : String
  duplicate_of_title : String
  similarity : Option ℚ
  dedup_type : String
  reason : String
deriving DecidableEq

/-- The dedup report object (export_dedup_report.py lines 81-103). -/
structure Report where
  summary : ReportSummary
  by_source_type : List (String × Nat)
  cross_source_duplicates : Nat
  duplicates : List DupReportEntry
deriving DecidableEq

/-- Insertion-ordered counter increment (a Python dict of counts). -/
def bumpCount : List (String × Nat) → String → List (String × Nat)
  | [], st => [(st, 1)]
  | (s, n) :: rest, st =>
    if s = st then (s, n + 1) :: rest else (s, n) :: bumpCount rest st

/-- export_dedup_report.py lines 67-70. -/
def countBySourceType (arts : List Article) : List (String × Nat) :=
  arts.foldl (fun acc a => bumpCount acc a.source_type) []

/-- export_dedup_report.py lines 106-118. -/
def mkDupReportEntry (d : DupEntry) : DupReportEntry :=
  ⟨articleKey d.article, d.article.title, articleKey d.duplicate_of,
   d.duplicate_of.title, some d.similarity,
   if d.llm_confirmed.getD false then "semantic_llm" else "semantic_auto",
   d.llm_reason.getD "Auto-detected duplicate"⟩

/-- Models `export_dedup_report`'s report construction
(export_dedup_report.py lines 28-118; file writes are side effects outside
the model). `url_duplicates_dropped` is read with default 0 at line 62. -/
def export_dedup_report (final_unique : List Article)
    (confirmed_duplicates : List DupEntry) (stored_count : Nat)
    (articles_to_check : List Article) (url_duplicates_dropped : Nat) :
    Report :=
  ⟨⟨articles_to_check.length,
    final_unique.length,
    confirmed_duplicates.length,
    url_duplicates_dropped,
    (confirmed_duplicates.filter (fun d => !d.llm_confirmed.getD false)).length,
    (confirmed_duplicates.filter (fun d => d.llm_confirmed.getD false)).length,
    stored_count⟩,
   countBySourceType final_unique,
   (confirmed_duplicates.filter
     (fun d => d.article.source_type != d.duplicate_of.source_type)).length,
   confirmed_duplicates.map mkDupReportEntry⟩

/-- Everything a completed run of the Layer-3 pipeline produces. -/
structure RunResult where
  articles_to_check : List Article
  merge_stats : MergeStats
  confirmed_duplicates : List DupEntry
  confirmed_unique : List Article
  stored_count : Nat
  final_unique : List Article
  report : Report
  db : List Row
  logs : List DedupLogEntry
deriving DecidableEq

/-- The Layer-3 pipeline of dedup_orchestrator.py (build_graph, lines
78-108): merge, embed, load history, classify, adjudicate, store, report.
In the orchestrator's state `url_duplicates_dropped` is never set, so the
report reads its default 0. An uncaught adjudication exception aborts the
run (`Except.error`). -/
def runDedupPipeline (input_sources : List String)
    (files : String → List Article) (embed : Article → List ℚ)
    (sim : Article → Article → ℚ) (db : List Row) (now lookback_hours : Nat)
    (call_result : Except String String)
    (parse : String → Except String (List Confirmation)) :
    Except String RunResult :=
  let m := merge_pipeline_outputs input_sources files
  let awe := generate_embeddings embed m.1
  let h := load_historical_embeddings db now lookback_hours
  let cls := compare_similarities sim awe h.1 h.2
  match llm_confirm_duplicates cls.ambiguous_pairs cls.unique_articles
      cls.duplicate_articles call_result parse with
  | .error e => .error e
  | .ok confirmed =>
    let st := store_articles db confirmed.2 confirmed.1
    let report := export_dedup_report st.final_unique confirmed.1
      st.stored_count m.1 0
    .ok ⟨m.1, m.2, confirmed.1, confirmed.2, st.stored_count,
         st.final_unique, report, st.db, st.logs⟩

/-- The audit-completeness property of a run's report: the duplicates list
accounts for every removal category, and kept plus removed equals the
input. Vacuous for an aborted run, which produces no report. -/
def reportAudit : Except String RunResult → Prop
  | .error _ => True
  | .ok res =>
    res.report.duplicates.length =
      res.report.summary.url_duplicates +
      res.report.summary.semantic_auto_duplicates +
      res.report.summary.semantic_llm_confirmed ∧
    res.report.summary.unique_kept + res.report.summary.duplicates_removed =
      res.report.summary.total_input

/-! ## Store lemmas (database.py) -/

theorem url_exists_iff (db : List Row) (u : String) :
    url_exists db u = true ↔ u ∈ urls db := by
  simp [url_exists, urls, List.any_eq_true, List.mem_map]

theorem insert_article_mono (db : List Row) (a : Article) (u : String)
    (h : u ∈ urls db) : u ∈ urls (insert_article db a).1 := by
  unfold insert_article
  split
  · exact h
  · simpa [urls] using Or.inl h

theorem insert_article_key (db : List Row) (a : Article) :
    articleKey a ∈ urls (insert_article db a).1 := by
  unfold insert_article
  split
  · next hex => exact (url_exists_iff db (articleKey a)).mp hex
  · simp [urls, mkRow]

theorem insert_article_skip (db : List Row) (a : Article)
    (h : url_exists db (articleKey a) = true) :
    insert_article db a = (db, false) := by
  simp [insert_article, h]

theorem insert_article_nodup (db : List Row) (a : Article)
    (h : (urls db).Nodup) : (urls (insert_article db a).1).Nodup := by
  unfold insert_article
  split
  · exact h
  · next hex =>
    have hni : articleKey a ∉ urls db := fun hm =>
      hex ((url_exists_iff db (articleKey a)).mpr hm)
    have hnr : ∀ r ∈ db, ¬r.url = articleKey a := by
      intro r hr heq
      exact hni (heq ▸ List.mem_map_of_mem Row.url hr)
    simpa [urls, mkRow, List.nodup_append] using ⟨h, hnr⟩

theorem insert_batch_mono (l : List Article) (db : List Row) (u : String)
    (h : u ∈ urls db) : u ∈ urls (insert_articles_batch db l).1 := by
  induction l generalizing db with
  | nil => simpa [insert_articles_batch] using h
  | cons a rest ih =>
    simpa [insert_articles_batch] using ih _ (insert_article_mono db a u h)

theorem insert_batch_keys (l : List Article) (db : List Row) :
    ∀ a ∈ l, articleKey a ∈ urls (insert_articles_batch db l).1 := by
  induction l generalizing db with
  | nil => intro a ha; cases ha
  | cons b rest ih =>
    intro a ha
    rcases List.mem_cons.mp ha with h | h
    · subst h
      simpa [insert_articles_batch] using
        insert_batch_mono rest _ _ (insert_article_key db a)
    · simpa [insert_articles_batch] using ih _ a h

theorem insert_batch_skip_all (l : List Article) (db : List Row)
    (h : ∀ a ∈ l, url_exists db (articleKey a) = true) :
    insert_articles_batch db l = (db, 0) := by
  induction l with
  | nil => rfl
  | cons a rest ih =>
    have hs := insert_article_skip db a (h a (List.mem_cons_self a rest))
    simp [insert_articles_batch, hs, ih (fun b hb => h b (List.mem_cons_of_mem a hb))]

theorem insert_batch_nodup (l : List Article) (db : List Row)
    (h : (urls db).Nodup) : (urls (insert_articles_batch db l).1).Nodup := by
  induction l generalizing db with
  | nil => simpa [insert_articles_batch] using h
  | cons a rest ih =>
    simpa [insert_articles_batch] using ih _ (insert_article_nodup db a h)

/-- C1: inserting a batch and then inserting the identical batch again
leaves the store without two rows sharing a URL; the second insertion
inserts 0 rows, leaves the store unchanged, and changes no URL's
existence. -/
theorem insert_batch_idempotent_admission (db : List Row)
    (batch : List Article) (hnodup : (urls db).Nodup) :
    insert_articles_batch (insert_articles_batch db batch).1 batch
      = ((insert_articles_batch db batch).1, 0) ∧
    (urls (insert_articles_batch (insert_articles_batch db batch).1 batch).1).Nodup ∧
    ∀ u, url_exists (insert_articles_batch (insert_articles_batch db batch).1 batch).1 u
      = url_exists (insert_articles_batch db batch).1 u := by
  have hkeys : ∀ a ∈ batch,
      url_exists (insert_articles_batch db batch).1 (articleKey a) = true :=
    fun a ha => (url_exists_iff _ _).mpr (insert_batch_keys batch db a ha)
  have hskip := insert_batch_skip_all batch (insert_articles_batch db batch).1 hkeys
  refine ⟨hskip, ?_, fun u => by rw [hskip]⟩
  rw [hskip]
  exact insert_batch_nodup batch db hnodup

/-- Witness for C1, matching the spec's example: the batch
`[{url: "a.com/1"}]` into an empty store inserts 1 row; re-inserting it
inserts 0, leaves the store unchanged and preserves URL uniqueness. -/
theorem insert_batch_idempotent_admission_witness :
    insert_articles_batch [] [⟨some "a.com/1", none, "Example", "Body", "rss", 0, none⟩] =
      ([⟨"a.com/1", "Example", "Body", "rss", 0, none⟩], 1) ∧
    (insert_articles_batch
      (insert_articles_batch [] [⟨some "a.com/1", none, "Example", "Body", "rss", 0, none⟩]).1
      [⟨some "a.com/1", none, "Example", "Body", "rss", 0, none⟩]
      = ((insert_articles_batch [] [⟨some "a.com/1", none, "Example", "Body", "rss", 0, none⟩]).1, 0) ∧
    (urls (insert_articles_batch
      (insert_articles_batch [] [⟨some "a.com/1", none, "Example", "Body", "rss", 0, none⟩]).1
      [⟨some "a.com/1", none, "Example", "Body", "rss", 0, none⟩]).1).Nodup ∧
    ∀ u, url_exists (insert_articles_batch
      (insert_articles_batch [] [⟨some "a.com/1", none, "Example", "Body", "rss", 0, none⟩]).1
      [⟨some "a.com/1", none, "Example", "Body", "rss", 0, none⟩]).1 u
      = url_exists (insert_articles_batch [] [⟨some "a.com/1", none, "Example", "Body", "rss", 0, none⟩]).1 u) :=
  ⟨by decide,
   insert_batch_idempotent_admission []
     [⟨some "a.com/1", none, "Example", "Body", "rss", 0, none⟩] (by decide)⟩

/-! ## Classifier lemmas (compare_similarities.py) -/

/-- C2: on a first run, or with an empty historical list, every new record
is returned unique with empty duplicate and ambiguous outputs; the result
is the same for every similarity function, so no comparison can have
influenced it. -/
theorem first_run_seeding (sim : Article → Article → ℚ)
    (new_articles historical : List Article) (is_first_run : Bool)
    (h : is_first_run = true ∨ historical = []) :
    compare_similarities sim new_articles historical is_first_run
      = ⟨new_articles, [], []⟩ := by
  rcases h with h | h <;> simp [compare_similarities, h]

/-- Witness for C2: two mutually identical records (any similarity function,
here constantly 1) against an empty history both come back unique. -/
theorem first_run_seeding_witness :
    compare_similarities (fun _ _ => (1 : ℚ))
      [⟨some "u1", none, "T", "S", "rss", 0, none⟩,
       ⟨some "u1", none, "T", "S", "rss", 0, none⟩] [] true
      = ⟨[⟨some "u1", none, "T", "S", "rss", 0, none⟩,
          ⟨some "u1", none, "T", "S", "rss", 0, none⟩], [], []⟩ :=
  first_run_seeding _ _ _ _ (Or.inl rfl)

theorem compareLoop_unique_iff (sim : Article → Article → ℚ)
    (hist : List Article) (l : List Article) (a : Article) :
    a ∈ (compareLoop sim hist l).unique_articles ↔
      a ∈ l ∧ rowMax (hist.map (sim a)) < THRESHOLD_UNIQUE := by
  induction l with
  | nil => simp [compareLoop]
  | cons b rest ih =>
    by_cases h1 : rowMax (hist.map (sim b)) < THRESHOLD_UNIQUE
    · by_cases hab : a = b
      · subst hab
        simp [compareLoop, h1, ih]
      · simp only [compareLoop, if_pos h1]
        simp [List.mem_cons, hab, ih]
    · by_cases h2 : THRESHOLD_DUPLICATE ≤ rowMax (hist.map (sim b))
      · simp only [compareLoop, if_neg h1, if_pos h2]
        constructor
        · intro h
          exact ⟨List.mem_cons_of_mem b (ih.mp h).1, (ih.mp h).2⟩
        · rintro ⟨hm, hs⟩
          rcases List.mem_cons.mp hm with rfl | hm
          · exact absurd hs h1
          · exact ih.mpr ⟨hm, hs⟩
      · simp only [compareLoop, if_neg h1, if_neg h2]
        constructor
        · intro h
          exact ⟨List.mem_cons_of_mem b (ih.mp h).1, (ih.mp h).2⟩
        · rintro ⟨hm, hs⟩
          rcases List.mem_cons.mp hm with rfl | hm
          · exact absurd hs h1
          · exact ih.mpr ⟨hm, hs⟩

theorem compareLoop_dup_iff (sim : Article → Article → ℚ)
    (hist : List Article) (l : List Article) (a : Article) :
    (∃ d ∈ (compareLoop sim hist l).duplicate_articles, d.article = a) ↔
      a ∈ l ∧ THRESHOLD_DUPLICATE ≤ rowMax (hist.map (sim a)) := by
  induction l with
  | nil => simp [compareLoop]
  | cons b rest ih =>
    by_cases h1 : rowMax (hist.map (sim b)) < THRESHOLD_UNIQUE
    · simp only [compareLoop, if_pos h1]
      constructor
      · intro h
        rcases ih.mp h with ⟨hm, hs⟩
        exact ⟨List.mem_cons_of_mem b hm, hs⟩
      · rintro ⟨hm, hs⟩
        rcases List.mem_cons.mp hm with rfl | hm
        · exact absurd (lt_of_lt_of_le (by norm_num [THRESHOLD_UNIQUE, THRESHOLD_DUPLICATE]) hs) (not_lt.mpr (le_of_lt h1))
        · exact ih.mpr ⟨hm, hs⟩
    · by_cases h2 : THRESHOLD_DUPLICATE ≤ rowMax (hist.map (sim b))
      · simp only [compareLoop, if_neg h1, if_pos h2]
        constructor
        · rintro ⟨d, hd, hda⟩
          rcases List.mem_cons.mp hd with rfl | hd
          · exact ⟨by simp at hda; rw [← hda]; exact List.mem_cons_self b rest,
                   by simp at hda; rw [← hda]; exact h2⟩
          · rcases ih.mp ⟨d, hd, hda⟩ with ⟨hm, hs⟩
            exact ⟨List.mem_cons_of_mem b hm, hs⟩
        · rintro ⟨hm, hs⟩
          rcases List.mem_cons.mp hm with rfl | hm
          · exact ⟨_, List.mem_cons_self _ _, rfl⟩
          · rcases ih.mpr ⟨hm, hs⟩ with ⟨d, hd, hda⟩
            exact ⟨d, List.mem_cons_of_mem _ hd, hda⟩
      · simp only [compareLoop, if_neg h1, if_neg h2]
        constructor
        · intro h
          rcases ih.mp h with ⟨hm, hs⟩
          exact ⟨List.mem_cons_of_mem b hm, hs⟩
        · rintro ⟨hm, hs⟩
          rcases List.mem_cons.mp hm with rfl | hm
          · exact absurd hs h2
          · exact ih.mpr ⟨hm, hs⟩

theorem compareLoop_ambig_iff (sim : Article → Article → ℚ)
    (hist : List Article) (l : List Article) (a : Article) :
    (∃ p ∈ (compareLoop sim hist l).ambiguous_pairs, p.new_article = a) ↔
      a ∈ l ∧ THRESHOLD_UNIQUE ≤ rowMax (hist.map (sim a)) ∧
        rowMax (hist.map (sim a)) < THRESHOLD_DUPLICATE := by
  induction l with
  | nil => simp [compareLoop]
  | cons b rest ih =>
    by_cases h1 : rowMax (hist.map (sim b)) < THRESHOLD_UNIQUE
    · simp only [compareLoop, if_pos h1]
      constructor
      · intro h
        rcases ih.mp h with ⟨hm, hs⟩
        exact ⟨List.mem_cons_of_mem b hm, hs⟩
      · rintro ⟨hm, hs⟩
        rcases List.mem_cons.mp hm with rfl | hm
        · exact absurd h1 (not_lt.mpr hs.1)
        · exact ih.mpr ⟨hm, hs⟩
    · by_cases h2 : THRESHOLD_DUPLICATE ≤ rowMax (hist.map (sim b))
      · simp only [compareLoop, if_neg h1, if_pos h2]
        constructor
        · intro h
          rcases ih.mp h with ⟨hm, hs⟩
          exact ⟨List.mem_cons_of_mem b hm, hs⟩
        · rintro ⟨hm, hs⟩
          rcases List.mem_cons.mp hm with rfl | hm
          · exact absurd h2 (not_le.mpr hs.2)
          · exact ih.mpr ⟨hm, hs⟩
      · simp only [compareLoop, if_neg h1, if_neg h2]
        constructor
        · rintro ⟨p, hp, hpa⟩
          rcases List.mem_cons.mp hp with rfl | hp
          · simp at hpa
            exact ⟨by rw [← hpa]; exact List.mem_cons_self b rest,
                   by rw [← hpa]; exact le_of_not_lt h1,
                   by rw [← hpa]; exact lt_of_not_le h2⟩
          · rcases ih.mp ⟨p, hp, hpa⟩ with ⟨hm, hs⟩
            exact ⟨List.mem_cons_of_mem b hm, hs⟩
        · rintro ⟨hm, hs⟩
          rcases List.mem_cons.mp hm with rfl | hm
          · exact ⟨_, List.mem_cons_self _ _, rfl⟩
          · rcases ih.mpr ⟨hm, hs⟩ with ⟨p, hp, hpa⟩
            exact ⟨p, List.mem_cons_of_mem _ hp, hpa⟩

/-- C3: with a non-empty history (and not a first run), a new record is
unique iff its maximum similarity s satisfies s < 0.75, duplicate iff
s ≥ 0.90, and ambiguous iff 0.75 ≤ s < 0.90; in particular s = 0.75 is
ambiguous and s = 0.90 is duplicate. -/
theorem threshold_boundaries (sim : Article → Article → ℚ)
    (new_articles historical : List Article) (a : Article)
    (hh : historical ≠ []) (ha : a ∈ new_articles) :
    (a ∈ (compare_similarities sim new_articles historical false).unique_articles
      ↔ rowMax (historical.map (sim a)) < THRESHOLD_UNIQUE) ∧
    ((∃ d ∈ (compare_similarities sim new_articles historical false).duplicate_articles,
        d.article = a)
      ↔ THRESHOLD_DUPLICATE ≤ rowMax (historical.map (sim a))) ∧
    ((∃ p ∈ (compare_similarities sim new_articles historical false).ambiguous_pairs,
        p.new_article = a)
      ↔ THRESHOLD_UNIQUE ≤ rowMax (historical.map (sim a)) ∧
        rowMax (historical.map (sim a)) < THRESHOLD_DUPLICATE) := by
  have hne : historical.isEmpty = false := by
    simpa [List.isEmpty_iff] using hh
  simp only [compare_similarities, hne, Bool.false_or, if_neg Bool.false_ne_true]
  exact ⟨(compareLoop_unique_iff sim historical new_articles a).trans (and_iff_right ha),
         (compareLoop_dup_iff sim historical new_articles a).trans (and_iff_right ha),
         (compareLoop_ambig_iff sim historical new_articles a).trans (and_iff_right ha)⟩

/-- Witness for C3: against a one-record history, a record at similarity
exactly 0.75 classifies ambiguous and one at exactly 0.90 classifies
duplicate. -/
theorem threshold_boundaries_witness :
    (∃ p ∈ (compare_similarities (fun _ _ => (0.75 : ℚ))
        [⟨some "n", none, "N", "S", "rss", 0, none⟩]
        [⟨some "h", none, "H", "S", "rss", 0, none⟩] false).ambiguous_pairs,
      p.new_article = ⟨some "n", none, "N", "S", "rss", 0, none⟩) ∧
    (∃ d ∈ (compare_similarities (fun _ _ => (0.90 : ℚ))
        [⟨some "n", none, "N", "S", "rss", 0, none⟩]
        [⟨some "h", none, "H", "S", "rss", 0, none⟩] false).duplicate_articles,
      d.article = ⟨some "n", none, "N", "S", "rss", 0, none⟩) :=
  ⟨((threshold_boundaries (fun _ _ => (0.75 : ℚ)) _ _ _
      (by simp) (List.mem_singleton.mpr rfl)).2.2).mpr
    (by norm_num [rowMax, THRESHOLD_UNIQUE, THRESHOLD_DUPLICATE]),
   ((threshold_boundaries (fun _ _ => (0.90 : ℚ)) _ _ _
      (by simp) (List.mem_singleton.mpr rfl)).2.1).mpr
    (by norm_num [rowMax, THRESHOLD_DUPLICATE])⟩

/-! ## Merge lemmas (merge_pipeline_outputs.py) -/

theorem taggedList_source_type (files : String → List Article) (st : String) :
    ∀ a ∈ taggedList files st, a.source_type = st := by
  intro a ha
  rcases List.mem_map.mp ha with ⟨b, _, rfl⟩
  rfl

theorem processArticles_kept (l : List Article) (seen : List String) :
    (processArticles l seen).1 = dedupFirstAux seen l := by
  induction l generalizing seen with
  | nil => rfl
  | cons a rest ih =>
    by_cases h : getUrl a ∈ seen <;>
      simp [processArticles, dedupFirstAux, h, ih]

theorem processArticles_counts (l : List Article) (seen : List String) :
    (processArticles l seen).1.length + (processArticles l seen).2.2 = l.length := by
  induction l generalizing seen with
  | nil => rfl
  | cons a rest ih =>
    by_cases h : getUrl a ∈ seen
    · have := ih seen
      simp only [processArticles, if_pos h, List.length_cons]
      omega
    · have := ih (getUrl a :: seen)
      simp only [processArticles, if_neg h, List.length_cons]
      omega

theorem dedupFirstAux_append (l₁ l₂ : List Article) (seen : List String) :
    dedupFirstAux seen (l₁ ++ l₂) =
      dedupFirstAux seen l₁ ++
        dedupFirstAux (processArticles l₁ seen).2.1 l₂ := by
  induction l₁ generalizing seen with
  | nil => simp [dedupFirstAux, processArticles]
  | cons a rest ih =>
    by_cases h : getUrl a ∈ seen <;>
      simp [dedupFirstAux, processArticles, h, ih]

theorem dedupFirstAux_sublist (l : List Article) (seen : List String) :
    (dedupFirstAux seen l).Sublist l := by
  induction l generalizing seen with
  | nil => exact List.Sublist.refl []
  | cons a rest ih =>
    by_cases h : getUrl a ∈ seen
    · rw [dedupFirstAux, if_pos h]
      exact (ih seen).cons a
    · rw [dedupFirstAux, if_neg h]
      exact (ih (getUrl a :: seen)).cons₂ a

theorem dedupFirstAux_nodup (l : List Article) (seen : List String) :
    ((dedupFirstAux seen l).map getUrl).Nodup ∧
      ∀ a ∈ dedupFirstAux seen l, getUrl a ∉ seen := by
  induction l generalizing seen with
  | nil => simp [dedupFirstAux]
  | cons a rest ih =>
    by_cases h : getUrl a ∈ seen
    · rw [dedupFirstAux, if_pos h]
      exact ih seen
    · rw [dedupFirstAux, if_neg h]
      obtain ⟨ihnd, ihseen⟩ := ih (getUrl a :: seen)
      refine ⟨?_, ?_⟩
      · refine List.nodup_cons.mpr ⟨?_, ihnd⟩
        intro hmem
        rcases List.mem_map.mp hmem with ⟨b, hb, hba⟩
        exact ihseen b hb (hba ▸ List.mem_cons_self _ _)
      · intro b hb
        rcases List.mem_cons.mp hb with rfl | hb
        · exact h
        · exact fun hs => ihseen b hb (List.mem_cons_of_mem _ hs)

theorem dedupFirstAux_complete (l : List Article) (seen : List String)
    (a : Article) (ha : a ∈ l) (hs : getUrl a ∉ seen) :
    getUrl a ∈ (dedupFirstAux seen l).map getUrl := by
  induction l generalizing seen with
  | nil => cases ha
  | cons b rest ih =>
    by_cases h : getUrl b ∈ seen
    · rw [dedupFirstAux, if_pos h]
      rcases List.mem_cons.mp ha with rfl | ha
      · exact absurd h hs
      · exact ih seen ha hs
    · rw [dedupFirstAux, if_neg h]
      by_cases hab : getUrl a = getUrl b
      · simp [hab]
      · rcases List.mem_cons.mp ha with rfl | ha
        · simp
        · have hns : getUrl a ∉ getUrl b :: seen := by
            intro hmem
            rcases List.mem_cons.mp hmem with h1 | h1
            · exact hab h1
            · exact hs h1
          rcases List.mem_map.mp (ih (getUrl b :: seen) ha hns) with ⟨c, hc, hca⟩
          exact List.mem_map.mpr ⟨c, List.mem_cons_of_mem _ hc, hca⟩

theorem dedupFirstAux_countP (l : List Article) (seen : List String)
    (k : String) :
    (dedupFirstAux seen l).countP (fun a => getUrl a == k) =
      if k ∈ seen then 0 else min 1 (l.countP (fun a => getUrl a == k)) := by
  induction l generalizing seen with
  | nil => simp [dedupFirstAux]
  | cons a rest ih =>
    by_cases hmem : getUrl a ∈ seen
    · rw [dedupFirstAux, if_pos hmem, ih]
      by_cases hk : k ∈ seen
      · simp [hk]
      · have hne : ¬(getUrl a == k) = true := by
          simp only [beq_iff_eq]
          rintro rfl
          exact hk hmem
        simp [hk, List.countP_cons, hne]
    · rw [dedupFirstAux, if_neg hmem]
      by_cases hak : getUrl a = k
      · subst hak
        rw [List.countP_cons, List.countP_cons, ih (getUrl a :: seen)]
        simp only [List.mem_cons, true_or, if_true, beq_self_eq_true, if_pos,
          if_neg hmem]
        omega
      · have hne : ((getUrl a == k) : Bool) = false := by
          simpa using hak
        rw [List.countP_cons, List.countP_cons, ih (getUrl a :: seen)]
        by_cases hk : k ∈ seen
        · have hkk : k ∈ getUrl a :: seen := List.mem_cons_of_mem _ hk
          simp [hk, hkk, hne]
        · have hkk : k ∉ getUrl a :: seen := by
            intro h
            rcases List.mem_cons.mp h with h1 | h1
            · exact hak h1.symm
            · exact hk h1
          simp [hk, hkk, hne]

theorem mergeSources_articles (sel : List String)
    (files : String → List Article) (prio : List String) (seen : List String) :
    (mergeSources sel files prio seen).1 =
      dedupFirstAux seen
        (((prio.filter (fun st => decide (st ∈ sel))).map (taggedList files)).flatten) := by
  induction prio generalizing seen with
  | nil => rfl
  | cons st rest ih =>
    by_cases h : st ∈ sel
    · have hf : List.filter (fun s => decide (s ∈ sel)) (st :: rest)
          = st :: List.filter (fun s => decide (s ∈ sel)) rest := by simp [h]
      simp only [mergeSources, if_pos h]
      rw [hf, List.map_cons, List.flatten_cons, processArticles_kept, ih,
        dedupFirstAux_append]
    · have hf : List.filter (fun s => decide (s ∈ sel)) (st :: rest)
          = List.filter (fun s => decide (s ∈ sel)) rest := by simp [h]
      simp only [mergeSources, if_neg h]
      rw [hf, ih]

theorem mergeSources_stats_mem (sel : List String)
    (files : String → List Article) (prio : List String) (seen : List String)
    (st : String) (s : SourceStats)
    (hmem : (st, s) ∈ (mergeSources sel files prio seen).2.1) :
    s.loaded = (files st).length ∧ s.kept + s.url_collisions = s.loaded := by
  induction prio generalizing seen with
  | nil => cases hmem
  | cons st' rest ih =>
    by_cases h : st' ∈ sel
    · simp only [mergeSources, if_pos h] at hmem
      rcases List.mem_cons.mp hmem with heq | hmem
      · injection heq with h1 h2
        subst h1
        subst h2
        exact ⟨by simp [taggedList],
          processArticles_counts (taggedList files st) seen⟩
      · exact ih _ hmem
    · simp only [mergeSources, if_neg h] at hmem
      exact ih _ hmem

theorem mergeSources_coll_sum (sel : List String)
    (files : String → List Article) (prio : List String) (seen : List String) :
    (mergeSources sel files prio seen).2.2.1 =
      ((mergeSources sel files prio seen).2.1.map
        (fun p => p.2.url_collisions)).sum := by
  induction prio generalizing seen with
  | nil => rfl
  | cons st rest ih =>
    by_cases h : st ∈ sel <;>
      simp [mergeSources, h, ih]

theorem mergeSources_accounting (sel : List String)
    (files : String → List Article) (prio : List String) (seen : List String) :
    (mergeSources sel files prio seen).1.length +
        (mergeSources sel files prio seen).2.2.1 =
      (((prio.filter (fun st => decide (st ∈ sel))).map (taggedList files)).flatten).length := by
  induction prio generalizing seen with
  | nil => rfl
  | cons st rest ih =>
    by_cases h : st ∈ sel
    · have hc := processArticles_counts (taggedList files st) seen
      have hr := ih (processArticles (taggedList files st) seen).2.1
      have hf : List.filter (fun s => decide (s ∈ sel)) (st :: rest)
          = st :: List.filter (fun s => decide (s ∈ sel)) rest := by simp [h]
      simp only [mergeSources, if_pos h, List.length_append]
      rw [hf, List.map_cons, List.flatten_cons, List.length_append]
      omega
    · have hf : List.filter (fun s => decide (s ∈ sel)) (st :: rest)
          = List.filter (fun s => decide (s ∈ sel)) rest := by simp [h]
      simp only [mergeSources, if_neg h]
      rw [hf, ih]

/-- C4: the merged output is the first-seen-per-URL filter of the candidate
stream taken in priority order rss, html, twitter (so the highest-priority
occurrence of each URL wins); its URLs are pairwise distinct and every
stream URL survives; each source's kept plus collision counts account for
all its loaded records, and the global collision counter is the sum of the
per-source ones, so merged length plus global collisions equals the stream
length. -/
theorem merge_priority (sel : List String) (files : String → List Article) :
    (merge_pipeline_outputs sel files).1 = dedupFirstAux [] (mergedStream sel files) ∧
    ((merge_pipeline_outputs sel files).1.map getUrl).Nodup ∧
    (∀ a ∈ mergedStream sel files,
      getUrl a ∈ (merge_pipeline_outputs sel files).1.map getUrl) ∧
    (∀ st s, (st, s) ∈ (merge_pipeline_outputs sel files).2.by_source_type →
      s.loaded = (files st).length ∧ s.kept + s.url_collisions = s.loaded) ∧
    (merge_pipeline_outputs sel files).2.url_collisions =
      (((merge_pipeline_outputs sel files).2.by_source_type).map
        (fun p => p.2.url_collisions)).sum ∧
    (merge_pipeline_outputs sel files).1.length +
        (merge_pipeline_outputs sel files).2.url_collisions =
      (mergedStream sel files).length := by
  have harts := mergeSources_articles sel files priorityOrder []
  refine ⟨harts, ?_, ?_, ?_, ?_, ?_⟩
  · rw [show (merge_pipeline_outputs sel files).1 =
        (mergeSources sel files priorityOrder []).1 from rfl, harts]
    exact (dedupFirstAux_nodup _ _).1
  · intro a ha
    rw [show (merge_pipeline_outputs sel files).1 =
        (mergeSources sel files priorityOrder []).1 from rfl, harts]
    exact dedupFirstAux_complete _ [] a ha (by simp)
  · intro st s hmem
    exact mergeSources_stats_mem sel files priorityOrder [] st s hmem
  · exact mergeSources_coll_sum sel files priorityOrder []
  · exact mergeSources_accounting sel files priorityOrder []

/-- Counterexample to C9: a single record with no `url` key is NOT dropped
by the merge — `article.get("url", "")` keys it as the empty string and the
first empty-key record is kept in the merged output. -/
theorem merge_missing_url_counterexample :
    (merge_pipeline_outputs ["rss", "html", "twitter"]
        (fun st => if st = "rss"
          then [⟨none, none, "NoURL", "S", "", 0, none⟩] else [])).1
      = [⟨none, none, "NoURL", "S", "rss", 0, none⟩] := by decide

/-- C9 amended: a record missing its URL field is keyed as the empty URL;
among all empty-URL records of the candidate stream exactly the first (if
any) survives to the merged output, the rest being dropped and counted —
merged length plus counted collisions always equals the stream length, and
the merge is a total function, so malformed records never abort the run. -/
theorem merge_missing_url_amended (sel : List String)
    (files : String → List Article) :
    (merge_pipeline_outputs sel files).1.countP (fun a => getUrl a == "") =
      min 1 ((mergedStream sel files).countP (fun a => getUrl a == "")) ∧
    (merge_pipeline_outputs sel files).1.length +
        (merge_pipeline_outputs sel files).2.url_collisions =
      (mergedStream sel files).length := by
  constructor
  · have harts := mergeSources_articles sel files priorityOrder []
    rw [show (merge_pipeline_outputs sel files).1 =
        (mergeSources sel files priorityOrder []).1 from rfl, harts]
    have h2 := dedupFirstAux_countP
      (((priorityOrder.filter (fun st => decide (st ∈ sel))).map
        (taggedList files)).flatten) [] ""
    rw [if_neg (List.not_mem_nil "")] at h2
    exact h2
  · exact mergeSources_accounting sel files priorityOrder []

/-- C10: the merged candidate list is grouped by source type in the fixed
priority order rss, html, twitter; within each source type the kept records
keep the relative order of that source's (tagged) input list, and an
unselected source contributes nothing. -/
theorem merge_output_grouped (sel : List String)
    (files : String → List Article) :
    ∃ kr kh kt : List Article,
      (merge_pipeline_outputs sel files).1 = kr ++ kh ++ kt ∧
      kr.Sublist (taggedList files "rss") ∧
      kh.Sublist (taggedList files "html") ∧
      kt.Sublist (taggedList files "twitter") ∧
      (∀ a ∈ kr, a.source_type = "rss") ∧
      (∀ a ∈ kh, a.source_type = "html") ∧
      (∀ a ∈ kt, a.source_type = "twitter") ∧
      ("rss" ∉ sel → kr = []) ∧ ("html" ∉ sel → kh = []) ∧
      ("twitter" ∉ sel → kt = []) := by
  refine ⟨dedupFirstAux []
      (if "rss" ∈ sel then taggedList files "rss" else []),
    dedupFirstAux
      (processArticles (if "rss" ∈ sel then taggedList files "rss" else []) []).2.1
      (if "html" ∈ sel then taggedList files "html" else []),
    dedupFirstAux
      (processArticles
        ((if "rss" ∈ sel then taggedList files "rss" else []) ++
          (if "html" ∈ sel then taggedList files "html" else [])) []).2.1
      (if "twitter" ∈ sel then taggedList files "twitter" else []),
    ?_, ?_, ?_, ?_, ?_, ?_, ?_, ?_, ?_, ?_⟩
  · have harts := mergeSources_articles sel files priorityOrder []
    have hstream :
        (((priorityOrder.filter (fun st => decide (st ∈ sel))).map
          (taggedList files)).flatten) =
        (if "rss" ∈ sel then taggedList files "rss" else []) ++
          (if "html" ∈ sel then taggedList files "html" else []) ++
          (if "twitter" ∈ sel then taggedList files "twitter" else []) := by
      by_cases h1 : "rss" ∈ sel <;> by_cases h2 : "html" ∈ sel <;>
        by_cases h3 : "twitter" ∈ sel <;>
        simp [priorityOrder, h1, h2, h3]
    rw [show (merge_pipeline_outputs sel files).1 =
        (mergeSources sel files priorityOrder []).1 from rfl, harts, hstream,
      dedupFirstAux_append, dedupFirstAux_append]
  · by_cases h1 : "rss" ∈ sel
    · rw [if_pos h1]
      exact dedupFirstAux_sublist _ _
    · rw [if_neg h1]
      exact List.nil_sublist _
  · by_cases h2 : "html" ∈ sel
    · rw [if_pos h2]
      exact dedupFirstAux_sublist _ _
    · rw [if_neg h2]
      exact List.nil_sublist _
  · by_cases h3 : "twitter" ∈ sel
    · rw [if_pos h3]
      exact dedupFirstAux_sublist _ _
    · rw [if_neg h3]
      exact List.nil_sublist _
  · intro a ha
    have hu := (dedupFirstAux_sublist _ _).subset ha
    by_cases h1 : "rss" ∈ sel
    · rw [if_pos h1] at hu
      exact taggedList_source_type files "rss" a hu
    · rw [if_neg h1] at hu
      cases hu
  · intro a ha
    have hu := (dedupFirstAux_sublist _ _).subset ha
    by_cases h2 : "html" ∈ sel
    · rw [if_pos h2] at hu
      exact taggedList_source_type files "html" a hu
    · rw [if_neg h2] at hu
      cases hu
  · intro a ha
    have hu := (dedupFirstAux_sublist _ _).subset ha
    by_cases h3 : "twitter" ∈ sel
    · rw [if_pos h3] at hu
      exact taggedList_source_type files "twitter" a hu
    · rw [if_neg h3] at hu
      cases hu
  · intro h
    rw [if_neg h]
    rfl
  · intro h
    rw [if_neg h]
    rfl
  · intro h
    rw [if_neg h]
    rfl

/-! ## Adjudication lemmas (llm_confirm_duplicates.py) -/

theorem processConfirmations_cons (p : AmbigEntry) (ps : List AmbigEntry)
    (c : Confirmation) (cs : List Confirmation) (d : List DupEntry)
    (u : List Article) :
    processConfirmations (p :: ps) (c :: cs) d u =
      if c.is_duplicate then
        processConfirmations ps cs
          (d ++ [⟨p.new_article, p.existing_article, p.similarity,
                  some true, some c.reason⟩]) u
      else processConfirmations ps cs d (u ++ [p.new_article]) := by
  by_cases hc : c.is_duplicate <;> simp [processConfirmations, hc]

theorem processConfirmations_length (pairs : List AmbigEntry)
    (confs : List Confirmation) (d : List DupEntry) (u : List Article) :
    (processConfirmations pairs confs d u).1.length +
        (processConfirmations pairs confs d u).2.length =
      d.length + u.length + min pairs.length confs.length := by
  induction pairs generalizing confs d u with
  | nil => simp [processConfirmations]
  | cons p ps ih =>
    cases confs with
    | nil => simp [processConfirmations]
    | cons c cs =>
      rw [processConfirmations_cons]
      by_cases hc : c.is_duplicate
      · rw [if_pos hc]
        have := ih cs
          (d ++ [⟨p.new_article, p.existing_article, p.similarity,
                  some true, some c.reason⟩]) u
        simp only [List.length_append, List.length_singleton] at this ⊢
        simp only [List.length_cons]
        omega
      · rw [if_neg hc]
        have := ih cs d (u ++ [p.new_article])
        simp only [List.length_append, List.length_singleton] at this ⊢
        simp only [List.length_cons]
        omega

theorem processConfirmations_all_false (pairs : List AmbigEntry)
    (confs : List Confirmation) (d : List DupEntry) (u : List Article)
    (hlen : pairs.length ≤ confs.length)
    (hfalse : ∀ c ∈ confs, c.is_duplicate = false) :
    processConfirmations pairs confs d u =
      (d, u ++ pairs.map AmbigEntry.new_article) := by
  induction pairs generalizing confs u with
  | nil => simp [processConfirmations]
  | cons p ps ih =>
    cases confs with
    | nil => simp at hlen
    | cons c cs =>
      rw [processConfirmations_cons,
        if_neg (by rw [hfalse c (List.mem_cons_self c cs)]; exact Bool.false_ne_true)]
      rw [ih cs (u ++ [p.new_article]) (by simpa using Nat.le_of_succ_le_succ hlen)
        (fun x hx => hfalse x (List.mem_cons_of_mem c hx))]
      simp

theorem call_llm_error (n : Nat) (e : String)
    (parse : String → Except String (List Confirmation)) :
    call_llm_for_confirmation n (.error e) parse = .error e := rfl

theorem call_llm_parse_error (n : Nat) (text e : String)
    (parse : String → Except String (List Confirmation))
    (h : parse text = .error e) :
    call_llm_for_confirmation n (.ok text) parse =
      .ok ((List.range n).map (fun i => ⟨i, false, "Parse error: " ++ e⟩)) := by
  simp [call_llm_for_confirmation, h]

theorem call_llm_length (n : Nat) (cr : Except String String)
    (parse : String → Except String (List Confirmation))
    (confs : List Confirmation)
    (h : call_llm_for_confirmation n cr parse = .ok confs) :
    n ≤ confs.length := by
  cases cr with
  | error e => simp [call_llm_for_confirmation] at h
  | ok text =>
    cases hp : parse text with
    | ok result =>
      simp only [call_llm_for_confirmation, hp] at h
      injection h with h2
      rw [← h2]
      simp only [padConfirmations, List.length_append, List.length_map,
        List.length_range]
      omega
    | error e =>
      simp only [call_llm_for_confirmation, hp] at h
      injection h with h2
      rw [← h2]
      simp

theorem llm_call_error_propagates (pairs : List AmbigEntry)
    (uniqs : List Article) (dups : List DupEntry) (e : String)
    (parse : String → Except String (List Confirmation))
    (hne : pairs ≠ []) :
    llm_confirm_duplicates pairs uniqs dups (.error e) parse = .error e := by
  have hp : pairs.isEmpty = false := by
    simpa [List.isEmpty_iff] using hne
  simp [llm_confirm_duplicates, hp, call_llm_error]

theorem llm_parse_error_defaults (pairs : List AmbigEntry)
    (uniqs : List Article) (dups : List DupEntry) (text e : String)
    (parse : String → Except String (List Confirmation))
    (hparse : parse text = .error e) :
    llm_confirm_duplicates pairs uniqs dups (.ok text) parse =
      .ok (dups, uniqs ++ pairs.map AmbigEntry.new_article) := by
  by_cases hp : pairs.isEmpty
  · rw [llm_confirm_duplicates, if_pos hp]
    have : pairs = [] := List.isEmpty_iff.mp hp
    simp [this]
  · rw [llm_confirm_duplicates, if_neg hp,
      call_llm_parse_error pairs.length text e parse hparse]
    simp only [List.length_map, List.length_range, lt_self_iff_false,
      if_false]
    rw [processConfirmations_all_false _ _ _ _ (by simp)
      (by intro c hc; rcases List.mem_map.mp hc with ⟨i, _, rfl⟩; rfl)]

theorem llm_ok_lengths (pairs : List AmbigEntry) (uniqs : List Article)
    (dups : List DupEntry) (cr : Except String String)
    (parse : String → Except String (List Confirmation))
    (r : List DupEntry × List Article)
    (h : llm_confirm_duplicates pairs uniqs dups cr parse = .ok r) :
    r.1.length + r.2.length = dups.length + uniqs.length + pairs.length := by
  unfold llm_confirm_duplicates at h
  by_cases hp : pairs.isEmpty
  · rw [if_pos hp] at h
    injection h with h2
    have : pairs = [] := List.isEmpty_iff.mp hp
    rw [← h2, this]
    simp
  · rw [if_neg hp] at h
    cases hc : call_llm_for_confirmation pairs.length cr parse with
    | error e =>
      rw [hc] at h
      have h2 : (Except.error e : Except String (List DupEntry × List Article))
          = .ok r := h
      cases h2
    | ok confs =>
      rw [hc] at h
      have h2 : (if pairs.length < confs.length then
            (Except.error "IndexError: list index out of range" :
              Except String (List DupEntry × List Article))
          else .ok (processConfirmations pairs confs dups uniqs)) = .ok r := h
      by_cases hg : pairs.length < confs.length
      · rw [if_pos hg] at h2
        cases h2
      · rw [if_neg hg] at h2
        have hle := call_llm_length _ _ _ _ hc
        injection h2 with h3
        have hl := processConfirmations_length pairs confs dups uniqs
        rw [h3] at hl
        have hmin : min pairs.length confs.length = pairs.length := by omega
        omega

/-- Counterexample to C5: an exception of the adjudicator CALL itself (as
opposed to a parse failure of its response) is not caught — the stage
returns the error, aborting the run instead of resolving the pair to
not-duplicate. -/
theorem adjudication_call_failure_counterexample :
    llm_confirm_duplicates
        [⟨⟨some "n", none, "N", "S", "rss", 0, none⟩,
          ⟨some "h", none, "H", "S", "rss", 0, none⟩, 0.8⟩]
        [] [] (Except.error "API connection failure")
        (fun _ => Except.error "unused")
      = Except.error "API connection failure" := rfl

/-- C5 amended: only a PARSE failure of the adjudicator's response is
caught: then every pair of the batch gets a default confirmation with
is_duplicate = false carrying the failure text, every new record is kept
as unique, and the run continues; a failure of the adjudicator call itself
propagates and aborts the run. -/
theorem adjudication_failure_handling (pairs : List AmbigEntry)
    (uniqs : List Article) (dups : List DupEntry) (text e : String)
    (parse : String → Except String (List Confirmation))
    (hparse : parse text = .error e) :
    call_llm_for_confirmation pairs.length (.ok text) parse =
      .ok ((List.range pairs.length).map
        (fun i => ⟨i, false, "Parse error: " ++ e⟩)) ∧
    llm_confirm_duplicates pairs uniqs dups (.ok text) parse =
      .ok (dups, uniqs ++ pairs.map AmbigEntry.new_article) ∧
    ∀ efail, pairs ≠ [] →
      llm_confirm_duplicates pairs uniqs dups (.error efail) parse =
        .error efail :=
  ⟨call_llm_parse_error pairs.length text e parse hparse,
   llm_parse_error_defaults pairs uniqs dups text e parse hparse,
   fun efail hne => llm_call_error_propagates pairs uniqs dups efail parse hne⟩

/-- Witness for C5 (amended): a concrete one-pair batch whose response does
not parse keeps the new record as unique and does not abort. -/
theorem adjudication_failure_handling_witness :
    llm_confirm_duplicates
        [⟨⟨some "n2", none, "N", "S", "rss", 0, none⟩,
          ⟨some "h2", none, "H", "S", "rss", 0, none⟩, 0.8⟩]
        [] [] (Except.ok "not json")
        (fun _ => Except.error "Expecting value")
      = Except.ok ([], [⟨some "n2", none, "N", "S", "rss", 0, none⟩]) := by
  have h := (adjudication_failure_handling
    [⟨⟨some "n2", none, "N", "S", "rss", 0, none⟩,
      ⟨some "h2", none, "H", "S", "rss", 0, none⟩, 0.8⟩]
    [] [] "not json" "Expecting value"
    (fun _ => Except.error "Expecting value") rfl).2.1
  simpa using h

/-- Counterexample to C7: when the adjudicator call throws, the stage
aborts with the error — no pair is resolved at all — and a pair kept as
unique produces no decision-log entry (only confirmed duplicates are
logged by store_articles). -/
theorem adjudicator_fallback_log_counterexample :
    llm_confirm_duplicates
        [⟨⟨some "n3", none, "N3", "S", "rss", 0, none⟩,
          ⟨some "h3", none, "H3", "S", "rss", 0, none⟩, 0.8⟩]
        [] [] (Except.error "AdjudicatorDown") (fun _ => Except.ok [])
      = Except.error "AdjudicatorDown" ∧
    (store_articles [] [⟨some "n3", none, "N3", "S", "rss", 0, none⟩] []).logs
      = [] :=
  ⟨rfl, rfl⟩

/-- C7 amended: an adjudicator-call exception propagates and aborts the
run with no pairs resolved and no decision-log entries; when instead the
response fails to parse, every pair of the batch resolves to
is_duplicate = false and is kept as unique, and the subsequent store step
writes decision-log entries only for the confirmed duplicates — an entry
has kind semantic_llm exactly when its duplicate was LLM-confirmed. -/
theorem adjudicator_fallback_audit (pairs : List AmbigEntry)
    (uniqs : List Article) (dups : List DupEntry) (db : List Row)
    (text e : String) (parse : String → Except String (List Confirmation))
    (hparse : parse text = .error e) (hne : pairs ≠ []) :
    (∀ efail, llm_confirm_duplicates pairs uniqs dups (.error efail) parse =
      .error efail) ∧
    llm_confirm_duplicates pairs uniqs dups (.ok text) parse =
      .ok (dups, uniqs ++ pairs.map AmbigEntry.new_article) ∧
    (store_articles db (uniqs ++ pairs.map AmbigEntry.new_article) dups).logs
      = dups.map mkDedupLogEntry ∧
    ∀ d : DupEntry, (mkDedupLogEntry d).dedup_type = "semantic_llm" ↔
      d.llm_confirmed.getD false = true := by
  refine ⟨fun efail => llm_call_error_propagates pairs uniqs dups efail parse hne,
    llm_parse_error_defaults pairs uniqs dups text e parse hparse, rfl, ?_⟩
  intro d
  by_cases hd : d.llm_confirmed.getD false = true
  · simp [mkDedupLogEntry, hd]
  · simp [mkDedupLogEntry, hd]

/-- Witness for C7 (amended): a concrete one-pair batch: the call-throw
case aborts, and the parse-failure case keeps the record as unique with an
empty decision log for it. -/
theorem adjudicator_fallback_audit_witness :
    llm_confirm_duplicates
        [⟨⟨some "n4", none, "N4", "S", "rss", 0, none⟩,
          ⟨some "h4", none, "H4", "S", "rss", 0, none⟩, 0.8⟩]
        [] [] (Except.error "boom") (fun _ => Except.error "bad") =
      Except.error "boom" :=
  (adjudicator_fallback_audit
    [⟨⟨some "n4", none, "N4", "S", "rss", 0, none⟩,
      ⟨some "h4", none, "H4", "S", "rss", 0, none⟩, 0.8⟩]
    [] [] [] "t" "bad" (fun _ => Except.error "bad") rfl
    (List.cons_ne_nil _ _)).1 "boom"

/-! ## Report accounting (export_dedup_report.py, dedup_orchestrator.py) -/

theorem length_filter_confirmed (l : List DupEntry) :
    (l.filter (fun d => !d.llm_confirmed.getD false)).length +
      (l.filter (fun d => d.llm_confirmed.getD false)).length = l.length := by
  induction l with
  | nil => rfl
  | cons a rest ih =>
    by_cases h : a.llm_confirmed.getD false = true <;>
      simp [List.filter_cons, h] <;> omega

theorem compareLoop_partition (sim : Article → Article → ℚ)
    (hist l : List Article) :
    (compareLoop sim hist l).unique_articles.length +
      (compareLoop sim hist l).duplicate_articles.length +
      (compareLoop sim hist l).ambiguous_pairs.length = l.length := by
  induction l with
  | nil => rfl
  | cons a rest ih =>
    simp only [compareLoop]
    split_ifs <;> simp only [List.length_cons] <;> omega

theorem compare_partition (sim : Article → Article → ℚ)
    (new_articles hist : List Article) (flag : Bool) :
    (compare_similarities sim new_articles hist flag).unique_articles.length +
      (compare_similarities sim new_articles hist flag).duplicate_articles.length +
      (compare_similarities sim new_articles hist flag).ambiguous_pairs.length
      = new_articles.length := by
  unfold compare_similarities
  split
  · simp
  · exact compareLoop_partition sim hist new_articles

/-- C6: for every completed run of the Layer-3 pipeline, the report's
duplicates list accounts for exactly the url, semantic-auto and
semantic-llm removal counts, and unique_kept + duplicates_removed equals
total_input — no record is unaccounted for. An aborted run produces no
report, for which the property is vacuous. -/
theorem dedup_report_audit (sel : List String) (files : String → List Article)
    (embed : Article → List ℚ) (sim : Article → Article → ℚ) (db : List Row)
    (now lookback_hours : Nat) (cr : Except String String)
    (parse : String → Except String (List Confirmation)) :
    reportAudit (runDedupPipeline sel files embed sim db now lookback_hours
      cr parse) := by
  simp only [runDedupPipeline]
  split
  · trivial
  · rename_i confirmed hllm
    have hlen := llm_ok_lengths _ _ _ _ _ _ hllm
    have hpart := compare_partition sim
      (generate_embeddings embed (merge_pipeline_outputs sel files).1)
      (load_historical_embeddings db now lookback_hours).1
      (load_historical_embeddings db now lookback_hours).2
    have hawe : (generate_embeddings embed
        (merge_pipeline_outputs sel files).1).length =
        (merge_pipeline_outputs sel files).1.length := by
      simp [generate_embeddings]
    have hsplit := length_filter_confirmed confirmed.1
    simp only [reportAudit, export_dedup_report, store_articles,
      List.length_map]
    constructor
    · omega
    · omega

/-! ## Historical window (database.py, load_historical_embeddings.py) -/

/-- Counterexample to C8: the cutoff is truncated to a calendar date, so
with now = hour 71 and a 48-hour lookback a row at hour 0 — 71 hours old —
is still returned by get_recent_articles; and a row lacking an embedding
is returned by the store operation too (its exclusion happens only in the
caller load_historical_embeddings). -/
theorem historical_window_counterexample :
    get_recent_articles [⟨"u", "T", "S", "rss", 0, some [1]⟩] 71 48
      = [⟨"u", "T", "S", "rss", 0, some [1]⟩] ∧
    (0 : Nat) + 48 < 71 ∧
    get_recent_articles [⟨"v", "T", "S", "rss", 70, none⟩] 71 48
      = [⟨"v", "T", "S", "rss", 70, none⟩] := by
  refine ⟨by decide, by norm_num, by decide⟩

/-- C8 amended: on a non-empty store, the historical window is exactly the
stored rows whose pub_date lies on or after the calendar date of
now − hours (a date-truncated cutoff, at or before the exact window start,
so up to a day's worth of older rows can be included) AND that carry an
embedding — the embedding filter being applied by the caller
load_historical_embeddings, not by get_recent_articles itself. -/
theorem historical_window_amended (db : List Row) (now hours : Nat)
    (hne : db ≠ []) :
    (load_historical_embeddings db now hours).1 =
      (db.filter (fun r => decide (dateFloor (now - hours) ≤ r.pub_date) &&
        r.embedding.isSome)).map rowToArticle ∧
    (load_historical_embeddings db now hours).2 = false ∧
    dateFloor (now - hours) ≤ now - hours := by
  have hemp : db_is_empty db = false := by
    simpa [db_is_empty, List.isEmpty_iff] using hne
  refine ⟨?_, ?_, Nat.div_mul_le_self _ _⟩
  · simp only [load_historical_embeddings, hemp, get_recent_articles,
      List.filter_filter, Bool.false_eq_true, if_false]
    congr 1
    exact List.filter_congr (fun r _ => Bool.and_comm _ _)
  · simp [load_historical_embeddings, hemp]

/-- Witness for C8 (amended): a two-row store — one row inside the
date-floored window with an embedding, one without — loads exactly the
embedded row. -/
theorem historical_window_amended_witness :
    (load_historical_embeddings
        [⟨"u", "T", "S", "rss", 50, some [1]⟩,
         ⟨"v", "T", "S", "rss", 50, none⟩] 71 48).1
      = ([⟨"u", "T", "S", "rss", 50, some [1]⟩,
          ⟨"v", "T", "S", "rss", 50, none⟩].filter
          (fun r => decide (dateFloor (71 - 48) ≤ r.pub_date) &&
            r.embedding.isSome)).map rowToArticle :=
  (historical_window_amended
    [⟨"u", "T", "S", "rss", 50, some [1]⟩,
     ⟨"v", "T", "S", "rss", 50, none⟩] 71 48 (by decide)).1

end NewsletterDedup
